import Mathlib

/-!
Shallow embedding of `pandas_alive/charts.py` (BaseChart, BarChart,
`animate_multiple_plots`) and verification of its data-preparation,
ranking, color and frame-count behaviour.

Tables are modelled as lists of rows of rational cell values together
with a parallel list of column names and dtypes; pandas operations used
by the source (`rank(axis=1, method="first", ascending=False)`, `clip`,
`reindex` + `interpolate`) are embedded by their documented semantics on
that model.
-/

namespace PandasAlive

/-! ### String constants used by the source -/

def descStr : String := "desc"

def ascStr : String := "asc"

def hStr : String := "h"

def vStr : String := "v"

def sortErr : String := "ValueError: sort must be asc or desc"

def orientationErr : String := "ValueError: orientation must be h or v"

def emptyStr : String := ""

/-! ### Data model -/

/-- A pandas column dtype, reduced to the distinction the source tests
with `np.issubdtype(dtype, np.number)`. -/
inductive Dtype where
  | number
  | object
deriving DecidableEq

/-- A pandas DataFrame: named, dtyped columns, rows of cell values
(the numeric view of each cell), and the row index labels. -/
structure DataFrame where
  cols : List (String × Dtype)
  values : List (List ℚ)
  index : List String
deriving DecidableEq

/-- Column names of a DataFrame, in order (pandas `df.columns`). -/
def DataFrame.columns (df : DataFrame) : List String :=
  df.cols.map (fun c => c.1)

/-! ### Ranking (pandas `rank(axis=1, method="first", ascending=False)`)

Entry `j` of a row gets rank `1 + #(entries strictly greater) +
#(equal entries occurring earlier)`: ties are broken by first-occurrence
order, exactly pandas' "first" method for a descending rank. -/

def rankFirstDesc (xs : List ℚ) : List ℚ :=
  xs.enum.map (fun jx =>
    (((xs.enum.countP (fun ky =>
        decide (jx.2 < ky.2) || (decide (ky.2 = jx.2) && decide (ky.1 < jx.1)))) + 1 : ℕ) : ℚ))

/-- The rank-inversion test of `BarChart.prepare_data`:
`(self.sort == "desc" and self.orientation == "h") or
 (self.sort == "asc" and self.orientation == "v")`. -/
def invertRanks (sort orientation : String) : Bool :=
  (sort == descStr && orientation == hStr) || (sort == ascStr && orientation == vStr)

/-- One row of the rank frame before interpolation: descending
first-method rank, clipped above at `n_bars + 1`, then inverted to
`n_bars + 1 - rank` when `invertRanks` holds
(`BarChart.prepare_data`, lines 158-164). -/
def rankRow (nBars : ℕ) (sort orientation : String) (xs : List ℚ) : List ℚ :=
  let clipped := (rankFirstDesc xs).map (fun r => min r ((nBars : ℚ) + 1))
  if invertRanks sort orientation then clipped.map (fun r => ((nBars : ℚ) + 1) - r)
  else clipped

/-! ### Reindex + linear interpolation

`prepare_data` places original row `k` at virtual position
`k * steps_per_period`, reindexes to the contiguous range
`0 .. (rows-1)*steps_per_period` and fills the gaps with pandas
`interpolate()` (linear between the surrounding original rows). -/

/-- Pointwise linear interpolation between two rows at parameter `t`. -/
def lerpRows (t : ℚ) (r0 r1 : List ℚ) : List ℚ :=
  List.zipWith (fun a b => a + t * (b - a)) r0 r1

/-- The virtual row at position `i` after reindexing original rows to
positions `k * s` and linearly interpolating the gaps. -/
def interpAt (rows : List (List ℚ)) (s i : ℕ) : List ℚ :=
  if i % s = 0 then rows.getD (i / s) []
  else lerpRows (((i % s : ℕ) : ℚ) / ((s : ℕ) : ℚ)) (rows.getD (i / s) []) (rows.getD (i / s + 1) [])

/-- Reindex rows to `0 .. (rows.length - 1) * s` and interpolate
(`df.reindex(new_index).interpolate()` with `new_index =
range(df.index.max() + 1)` and index `k * s`). -/
def interpolateFrames (rows : List (List ℚ)) (s : ℕ) : List (List ℚ) :=
  (List.range ((rows.length - 1) * s + 1)).map (interpAt rows s)

/-- Result of `BarChart.prepare_data`: the ValueFrame and RankFrame,
carrying the DataFrame's column names (unchanged by `reset_index`,
`rank`, `clip`, `reindex` and `interpolate`). -/
structure Prepared where
  columns : List String
  values : List (List ℚ)
  ranks : List (List ℚ)
deriving DecidableEq

/-- Embeds `BarChart.prepare_data` (charts.py lines 155-168): rank each
original row (descending, first method, clipped at `n_bars + 1`,
optionally inverted), then reindex both frames to the virtual range and
linearly interpolate.  Operates on all columns of the DataFrame. -/
def prepare_data (df : DataFrame) (s nBars : ℕ) (sort orientation : String) : Prepared :=
  { columns := df.columns
    values := interpolateFrames df.values s
    ranks := interpolateFrames (df.values.map (rankRow nBars sort orientation)) s }

/-- Embeds `BarChart.get_frames`: `range(len(self.df_values))`. -/
def get_frames (p : Prepared) : List ℕ := List.range p.values.length

/-! ### Python `min` / `max` over nonempty lists -/

/-- Python `max` over a list of naturals (`0` for the empty list, on
which Python raises instead). -/
def listMax : List ℕ → ℕ
  | [] => 0
  | x :: xs => xs.foldl max x

/-- Python `min` over a list of naturals (`0` for the empty list, on
which Python raises instead). -/
def listMin : List ℕ → ℕ
  | [] => 0
  | x :: xs => xs.foldl min x

/-- Embeds the `frames` argument `animate_multiple_plots` hands the
animation driver: `min([max(plot.get_frames()) for plot in plots])`
(charts.py line 413).  Passed an integer `N`, the driver runs frames
`0 .. N - 1`, i.e. exactly `N` frames. -/
def animate_multiple_plots_frames (plots : List Prepared) : ℕ :=
  listMin (plots.map (fun p => listMax (get_frames p)))

/-! ### Column selection (`BaseChart.get_data_cols`) -/

/-- Result of a Python call that can raise: either a value or an error. -/
inductive PyExcept (ε α : Type) where
  | error (e : ε)
  | ok (a : α)
deriving DecidableEq

inductive DataColsError where
  | unknownColumn (c : String)
  | noNumericColumns
deriving DecidableEq

/-- The numeric columns of a column list, in order (the entries the
loop of `get_data_cols` appends to `data_cols`). -/
def numericCols : List (String × Dtype) → List String
  | [] => []
  | c :: cs => if c.2 = Dtype.number then c.1 :: numericCols cs else numericCols cs

/-- Embeds `BaseChart.get_data_cols` (charts.py lines 71-86): iterate
over `self.df.columns`; raise `unknownColumn` at the first column not
contained in `self.df.columns` (the loop variable ranges over that very
list); collect the numeric columns; raise `noNumericColumns` if none. -/
def get_data_cols (df : DataFrame) : PyExcept DataColsError (List String) :=
  match df.cols.find? (fun c => !(df.columns.contains c.1)) with
  | some c => PyExcept.error (DataColsError.unknownColumn c.1)
  | none =>
    let data_cols := numericCols df.cols
    if data_cols = [] then PyExcept.error DataColsError.noNumericColumns
    else PyExcept.ok data_cols

/-! ### Colors (`BarChart.get_colors`, list cmap) -/

/-- Python list repetition `l * k`. -/
def repeatList (l : List String) : ℕ → List String
  | 0 => []
  | k + 1 => l ++ repeatList l k

/-- Embeds `BarChart.get_colors` for a list `cmap` (charts.py lines
138-144 over `BaseChart.get_colors`, which returns a list unchanged):
repeat the colors `ncols // n + 1` times when there are more columns
than colors, then truncate to the column count. -/
def get_colors (cmap : List String) (ncols : ℕ) : List String :=
  let n := cmap.length
  let bar_colors := if ncols > n then repeatList cmap (ncols / n + 1) else cmap
  bar_colors.take ncols

/-! ### Frame rendering (`BarChart.plot_bars`) -/

/-- The bar filter of `plot_bars`:
`(bar_location > 0) & (bar_location < self.n_bars + 1)`. -/
def top_filt (nBars : ℕ) (loc : ℚ) : Bool :=
  decide (0 < loc) && decide (loc < (nBars : ℚ) + 1)

/-- Numpy boolean-mask indexing `xs[mask]` over a parallel list. -/
def applyFilt {α : Type} (mask : List Bool) (xs : List α) : List α :=
  (mask.zip xs).filterMap (fun p => if p.1 then some p.2 else none)

/-- The drawable primitives `plot_bars` produces for one frame. -/
structure DrawnBars where
  bar_location : List ℚ
  bar_length : List ℚ
  cols : List String
deriving DecidableEq

/-- Embeds the selection part of `BarChart.plot_bars` (charts.py lines
244-250): mask the rank row, the value row and the column names by
`top_filt`. -/
def plot_bars (columns : List String) (values ranks : List (List ℚ)) (nBars i : ℕ) : DrawnBars :=
  let bar_location := ranks.getD i []
  let mask := bar_location.map (top_filt nBars)
  { bar_location := applyFilt mask bar_location
    bar_length := applyFilt mask (values.getD i [])
    cols := applyFilt mask columns }

/-! ### Construction (`BarChart.__attrs_post_init__`, `validate_params`) -/

/-- Embeds `BarChart.validate_params` (charts.py lines 129-136): reject
a `sort` outside `asc`/`desc`, then an `orientation` outside `h`/`v`. -/
def validate_params (sort orientation : String) : PyExcept String Unit :=
  if sort ≠ ascStr ∧ sort ≠ descStr then PyExcept.error sortErr
  else if orientation ≠ hStr ∧ orientation ≠ vStr then PyExcept.error orientationErr
  else PyExcept.ok ()

/-- Embeds `BarChart.get_label_position` (charts.py lines 146-153). -/
def get_label_position (orientation sort : String) : ℚ × ℚ :=
  if orientation == hStr then ((6 : ℚ) / 10, if sort == descStr then (1 : ℚ) / 4 else (8 : ℚ) / 10)
  else ((if sort == descStr then (7 : ℚ) / 10 else (1 : ℚ) / 10), (8 : ℚ) / 10)

/-- The derived state `__attrs_post_init__` computes. -/
structure BarChartState where
  n_bars : ℕ
  df_values : List (List ℚ)
  df_rank : List (List ℚ)
  x_label : ℚ
  y_label : ℚ
deriving DecidableEq

/-- Embeds the data-relevant steps of `BarChart.__attrs_post_init__`
(charts.py lines 118-127): default `n_bars` to the column count when
falsy, run `prepare_data`, compute the label position.  The method never
invokes `validate_params`, so no configuration check runs at
construction. -/
def attrs_post_init (df : DataFrame) (s nBars : ℕ) (sort orientation : String) : BarChartState :=
  let nB := if nBars = 0 then df.cols.length else nBars
  let p := prepare_data df s nB sort orientation
  let xy := get_label_position orientation sort
  { n_bars := nB
    df_values := p.values
    df_rank := p.ranks
    x_label := xy.1
    y_label := xy.2 }

/-! ### Concrete inputs used by witnesses and counterexamples -/

def aStr : String := "a"

def bStr : String := "b"

def cStr : String := "c"

def r0Str : String := "r0"

def r1Str : String := "r1"

def c0Str : String := "c0"

def c1Str : String := "c1"

def c2Str : String := "c2"

def badSort : String := "up"

/-- One row `[3, 2, 1]` over three numeric columns: with `n_bars = 1`
its clipped descending ranks are `[1, 2, 2]`, inverted to `[1, 0, 0]`. -/
def dfC3 : DataFrame :=
  ⟨[(aStr, Dtype.number), (bStr, Dtype.number), (cStr, Dtype.number)], [[3, 2, 1]], [r0Str]⟩

/-- Two rows over three numeric columns, for the interpolation checks. -/
def df2 : DataFrame :=
  ⟨[(aStr, Dtype.number), (bStr, Dtype.number), (cStr, Dtype.number)],
    [[0, 0, 0], [2, 4, 6]], [r0Str, r1Str]⟩

/-- A single numeric cell. -/
def dfC6 : DataFrame := ⟨[(aStr, Dtype.number)], [[1]], [r0Str]⟩

/-- One numeric and one non-numeric column. -/
def dfMixed : DataFrame := ⟨[(aStr, Dtype.number), (bStr, Dtype.object)], [[1, 2]], [r0Str]⟩

/-- A chart over ten single-column rows: ten frames at one step per period. -/
def chartA : Prepared :=
  prepare_data ⟨[(aStr, Dtype.number)], (List.range 10).map (fun i => [(i : ℚ)]), []⟩ 1 1 descStr hStr

/-- A chart over fifteen single-column rows: fifteen frames. -/
def chartB : Prepared :=
  prepare_data ⟨[(aStr, Dtype.number)], (List.range 15).map (fun i => [(i : ℚ)]), []⟩ 1 1 descStr hStr

/-- A chart with two frames. -/
def chartC : Prepared :=
  prepare_data ⟨[(aStr, Dtype.number)], [[0], [1]], []⟩ 1 1 descStr hStr

/-- A chart with three frames. -/
def chartD : Prepared :=
  prepare_data ⟨[(aStr, Dtype.number)], [[0], [1], [2]], []⟩ 1 1 descStr hStr

/-! ### List helper lemmas -/

lemma getD_map_of_lt {α β : Type} (f : α → β) (l : List α) (j : ℕ) (hj : j < l.length)
    (d : α) (e : β) : (l.map f).getD j e = f (l.getD j d) := by
  induction l generalizing j with
  | nil => simp at hj
  | cons x xs ih =>
    cases j with
    | zero => rfl
    | succ m => exact ih m (by simpa using hj)

lemma getD_range_map {β : Type} (f : ℕ → β) (n j : ℕ) (hj : j < n) (e : β) :
    ((List.range n).map f).getD j e = f j := by
  rw [getD_map_of_lt f _ j (by simpa using hj) 0]
  congr 1
  rw [List.getD_eq_getElem?_getD, List.getElem?_range hj]
  rfl

lemma getD_mem {α : Type} (l : List α) (j : ℕ) (hj : j < l.length) (d : α) :
    l.getD j d ∈ l := by
  rw [List.getD_eq_getElem l d hj]
  exact List.getElem_mem hj

lemma mem_getD_of_getD {rows : List (List ℚ)} {k : ℕ} {v : ℚ}
    (hv : v ∈ rows.getD k []) : ∃ row ∈ rows, v ∈ row := by
  by_cases hk : k < rows.length
  · exact ⟨rows.getD k [], getD_mem rows k hk [], hv⟩
  · rw [List.getD_eq_getElem?_getD, List.getElem?_eq_none (le_of_not_lt hk)] at hv
    exact absurd hv (List.not_mem_nil v)

lemma mem_zipWith {α β γ : Type} {f : α → β → γ} {as : List α} {bs : List β} {c : γ}
    (hc : c ∈ List.zipWith f as bs) : ∃ a ∈ as, ∃ b ∈ bs, c = f a b := by
  induction as generalizing bs with
  | nil => simp at hc
  | cons a as ih =>
    cases bs with
    | nil => simp at hc
    | cons b bs =>
      rw [List.zipWith_cons_cons, List.mem_cons] at hc
      rcases hc with hc | hc
      · exact ⟨a, List.mem_cons_self a _, b, List.mem_cons_self b _, hc⟩
      · obtain ⟨x, hx, y, hy, hxy⟩ := ih hc
        exact ⟨x, List.mem_cons_of_mem a hx, y, List.mem_cons_of_mem b hy, hxy⟩

lemma getD_take_of_lt {α : Type} (l : List α) (m j : ℕ) (hj : j < m) (d : α) :
    (l.take m).getD j d = l.getD j d := by
  rw [List.getD_eq_getElem?_getD, List.getD_eq_getElem?_getD, List.getElem?_take]
  simp [hj]

/-! ### Interpolation preserves interval bounds -/

lemma lerp_bounds {lo hi a b t : ℚ} (ha : lo ≤ a) (hb : a ≤ hi) (hc : lo ≤ b) (hd : b ≤ hi)
    (ht : 0 ≤ t) (ht1 : t ≤ 1) : lo ≤ a + t * (b - a) ∧ a + t * (b - a) ≤ hi := by
  constructor <;> nlinarith

lemma interpAt_mem_bounds {rows : List (List ℚ)} {lo hi : ℚ} {s i : ℕ} (hs : 0 < s)
    (h : ∀ row ∈ rows, ∀ v ∈ row, lo ≤ v ∧ v ≤ hi) :
    ∀ v ∈ interpAt rows s i, lo ≤ v ∧ v ≤ hi := by
  intro v hv
  unfold interpAt at hv
  split at hv
  · obtain ⟨row, hrow, hvr⟩ := mem_getD_of_getD hv
    exact h row hrow v hvr
  · obtain ⟨a, ha, b, hb, rfl⟩ := mem_zipWith hv
    obtain ⟨rowa, hrowa, hva⟩ := mem_getD_of_getD ha
    obtain ⟨rowb, hrowb, hvb⟩ := mem_getD_of_getD hb
    have hba := h rowa hrowa a hva
    have hbb := h rowb hrowb b hvb
    have ht : (0 : ℚ) ≤ ((i % s : ℕ) : ℚ) / ((s : ℕ) : ℚ) := by positivity
    have ht1 : ((i % s : ℕ) : ℚ) / ((s : ℕ) : ℚ) ≤ 1 := by
      rw [div_le_one (by exact_mod_cast hs)]
      exact_mod_cast le_of_lt (Nat.mod_lt i hs)
    exact lerp_bounds hba.1 hba.2 hbb.1 hbb.2 ht ht1

/-! ### Rank value bounds -/

lemma rankFirstDesc_one_le {xs : List ℚ} : ∀ v ∈ rankFirstDesc xs, 1 ≤ v := by
  intro v hv
  unfold rankFirstDesc at hv
  rw [List.mem_map] at hv
  obtain ⟨jx, _, rfl⟩ := hv
  exact_mod_cast Nat.succ_le_succ (Nat.zero_le _)

lemma rankRow_bounds {nB : ℕ} {sort orientation : String} {xs : List ℚ} :
    ∀ v ∈ rankRow nB sort orientation xs,
      (0 ≤ v ∧ v ≤ (nB : ℚ) + 1) ∧ (invertRanks sort orientation = false → 1 ≤ v) := by
  intro v hv
  have hcast : (1 : ℚ) ≤ (nB : ℚ) + 1 := by
    have := Nat.cast_nonneg (α := ℚ) nB
    linarith
  unfold rankRow at hv
  rcases hb : invertRanks sort orientation with _ | _
  · rw [hb] at hv
    simp only [Bool.false_eq_true, if_false] at hv
    rw [List.mem_map] at hv
    obtain ⟨r, hr, rfl⟩ := hv
    have h1 := rankFirstDesc_one_le r hr
    have h2 : min r ((nB : ℚ) + 1) ≤ (nB : ℚ) + 1 := min_le_right r _
    have h3 : (1 : ℚ) ≤ min r ((nB : ℚ) + 1) := le_min h1 hcast
    exact ⟨⟨by linarith, h2⟩, fun _ => h3⟩
  · rw [hb] at hv
    simp only [if_true] at hv
    rw [List.mem_map] at hv
    obtain ⟨w, hw, rfl⟩ := hv
    rw [List.mem_map] at hw
    obtain ⟨r, hr, rfl⟩ := hw
    have h1 := rankFirstDesc_one_le r hr
    have h2 : min r ((nB : ℚ) + 1) ≤ (nB : ℚ) + 1 := min_le_right r _
    have h3 : (1 : ℚ) ≤ min r ((nB : ℚ) + 1) := le_min h1 hcast
    refine ⟨⟨by linarith, by linarith⟩, fun hf => ?_⟩
    simp at hf

/-! ### Python min and max over lists -/

lemma listMax_eq_foldl (l : List ℕ) : listMax l = l.foldl max 0 := by
  cases l with
  | nil => rfl
  | cons x xs => simp [listMax, List.foldl_cons, Nat.zero_max]

lemma listMax_range (n : ℕ) : listMax (List.range n) = n - 1 := by
  rw [listMax_eq_foldl]
  induction n with
  | zero => rfl
  | succ m ih =>
    rw [List.range_succ, List.foldl_append, ih]
    simp only [List.foldl_cons, List.foldl_nil]
    omega

lemma listMin_map_pred (l : List ℕ) : listMin (l.map (fun x => x - 1)) = listMin l - 1 := by
  cases l with
  | nil => rfl
  | cons x xs =>
    simp only [List.map_cons, listMin]
    induction xs generalizing x with
    | nil => rfl
    | cons y ys ih =>
      simp only [List.map_cons, List.foldl_cons]
      rw [Nat.sub_min_sub_right]
      exact ih (min x y)

/-! ### Mask filtering -/

lemma applyFilt_cons_true {α : Type} (bs : List Bool) (y : α) (ys : List α) :
    applyFilt (true :: bs) (y :: ys) = y :: applyFilt bs ys := by
  simp [applyFilt]

lemma applyFilt_cons_false {α : Type} (bs : List Bool) (y : α) (ys : List α) :
    applyFilt (false :: bs) (y :: ys) = applyFilt bs ys := by
  simp [applyFilt]

lemma mem_applyFilt {α : Type} {mask : List Bool} {xs : List α} {x : α}
    (h : x ∈ applyFilt mask xs) : x ∈ xs := by
  induction mask generalizing xs with
  | nil => simp [applyFilt] at h
  | cons b bs ih =>
    cases xs with
    | nil => simp [applyFilt] at h
    | cons y ys =>
      rcases b with _ | _
      · rw [applyFilt_cons_false] at h
        exact List.mem_cons_of_mem y (ih h)
      · rw [applyFilt_cons_true, List.mem_cons] at h
        rcases h with h | h
        · exact h ▸ List.mem_cons_self y ys
        · exact List.mem_cons_of_mem y (ih h)

lemma getD_mem_applyFilt_iff {α : Type} [DecidableEq α] {xs : List α} {mask : List Bool}
    {j : ℕ} (d : α) (hnd : xs.Nodup) (hj : j < xs.length) (hlen : xs.length ≤ mask.length) :
    (xs.getD j d ∈ applyFilt mask xs ↔ mask.getD j false = true) := by
  induction xs generalizing mask j with
  | nil => simp at hj
  | cons y ys ih =>
    cases mask with
    | nil => simp at hlen
    | cons b bs =>
      have hynotin : y ∉ ys := (List.nodup_cons.mp hnd).1
      have hndtail : ys.Nodup := (List.nodup_cons.mp hnd).2
      cases j with
      | zero =>
        rcases b with _ | _
        · show y ∈ applyFilt (false :: bs) (y :: ys) ↔ false = true
          rw [applyFilt_cons_false]
          constructor
          · intro hmem
            exact absurd (mem_applyFilt hmem) hynotin
          · intro hfalse
            exact absurd hfalse Bool.false_ne_true
        · show y ∈ applyFilt (true :: bs) (y :: ys) ↔ true = true
          rw [applyFilt_cons_true]
          simp
      | succ m =>
        have hm : m < ys.length := by simpa using hj
        have hlenm : ys.length ≤ bs.length := by simpa using hlen
        have hne : ys.getD m d ≠ y := by
          intro heq
          exact hynotin (heq ▸ getD_mem ys m hm d)
        show ys.getD m d ∈ applyFilt (b :: bs) (y :: ys) ↔ bs.getD m false = true
        rcases b with _ | _
        · rw [applyFilt_cons_false]
          exact ih hndtail hm hlenm
        · rw [applyFilt_cons_true, List.mem_cons]
          constructor
          · intro hmem
            rcases hmem with hmem | hmem
            · exact absurd hmem hne
            · exact (ih hndtail hm hlenm).mp hmem
          · intro htrue
            exact Or.inr ((ih hndtail hm hlenm).mpr htrue)

/-! ### Cyclic color repetition -/

lemma repeatList_length (l : List String) (k : ℕ) :
    (repeatList l k).length = l.length * k := by
  induction k with
  | zero => simp [repeatList]
  | succ m ih => simp [repeatList, ih, Nat.mul_succ]; omega

lemma repeatList_getD (l : List String) (k j : ℕ) (hl : l ≠ []) (hj : j < l.length * k)
    (d : String) : (repeatList l k).getD j d = l.getD (j % l.length) d := by
  have hn : 0 < l.length := List.length_pos.mpr hl
  induction k generalizing j with
  | zero => simp at hj
  | succ m ih =>
    show (l ++ repeatList l m).getD j d = l.getD (j % l.length) d
    by_cases hjl : j < l.length
    · rw [List.getD_append _ _ _ _ hjl, Nat.mod_eq_of_lt hjl]
    · push_neg at hjl
      rw [List.getD_append_right _ _ _ _ hjl]
      rw [ih (j - l.length) (by rw [Nat.mul_succ] at hj; omega)]
      rw [Nat.mod_eq_sub_mod hjl]

/-! ### The rank-inversion condition, at the propositional level -/

lemma invert_iff {sort orientation : String} :
    invertRanks sort orientation = true ↔
      ((sort = descStr ∧ orientation = hStr) ∨ (sort = ascStr ∧ orientation = vStr)) := by
  simp [invertRanks, Bool.or_eq_true, Bool.and_eq_true, beq_iff_eq]

lemma prepare_length (df : DataFrame) (s nB : ℕ) (sort orientation : String) :
    (prepare_data df s nB sort orientation).values.length =
      (df.values.length - 1) * s + 1 := by
  simp [prepare_data, interpolateFrames]

lemma ranks_length (df : DataFrame) (s nB : ℕ) (sort orientation : String) :
    (prepare_data df s nB sort orientation).ranks.length =
      (df.values.length - 1) * s + 1 := by
  simp [prepare_data, interpolateFrames]

/-- Claim C1: for every table, sort setting and orientation setting, at every
original row position `k * s` the RankFrame of `prepare_data` holds the naive
rank of that row (position when sorted descending by value, ties broken by
first-occurrence column order, clipped above at `n_bars + 1`), inverted to
`n_bars + 1 - naive_rank` exactly when `sort = "desc" ∧ orientation = "h"` or
`sort = "asc" ∧ orientation = "v"`, and the naive rank itself otherwise. -/
theorem rank_inversion_rule (df : DataFrame) (s nB : ℕ) (sort orientation : String) (k : ℕ)
    (hs : 0 < s) (hk : k < df.values.length) :
    (prepare_data df s nB sort orientation).ranks.getD (k * s) [] =
      (if (sort = descStr ∧ orientation = hStr) ∨ (sort = ascStr ∧ orientation = vStr)
       then ((rankFirstDesc (df.values.getD k [])).map (fun r => min r ((nB : ℚ) + 1))).map
              (fun r => ((nB : ℚ) + 1) - r)
       else (rankFirstDesc (df.values.getD k [])).map (fun r => min r ((nB : ℚ) + 1))) := by
  have hks : k * s < (df.values.length - 1) * s + 1 := by
    have h1 : k ≤ df.values.length - 1 := by omega
    have h2 := Nat.mul_le_mul_right s h1
    omega
  show (interpolateFrames (df.values.map (rankRow nB sort orientation)) s).getD (k * s) [] = _
  unfold interpolateFrames
  rw [List.length_map]
  rw [getD_range_map _ _ _ hks]
  unfold interpAt
  rw [Nat.mul_mod_left]
  rw [if_pos rfl]
  rw [Nat.mul_div_cancel k hs]
  rw [getD_map_of_lt _ _ _ hk []]
  unfold rankRow
  simp only [invert_iff]

/-- Witness for C1 at a concrete input: one row `[3, 2, 1]`, `n_bars = 1`,
`sort = "desc"`, `orientation = "h"` — the inverted clipped ranks `[1, 0, 0]`. -/
theorem rank_inversion_rule_witness :
    (prepare_data dfC3 1 1 descStr hStr).ranks.getD 0 [] = [1, 0, 0] := by
  have h := rank_inversion_rule dfC3 1 1 descStr hStr 0 (by decide) (by decide)
  rw [if_pos (Or.inl ⟨rfl, rfl⟩)] at h
  rw [show (0 : ℕ) = 0 * 1 from rfl]
  rw [h]
  norm_num [dfC3, rankFirstDesc, List.enum]

/-- Claim C4: the ValueFrame of `prepare_data` has exactly the virtual index
positions `0 .. (rows - 1) * steps_per_period`; position `k * s` holds original
row `k` and every intermediate position holds the linear interpolation of the
surrounding original rows. -/
theorem value_frame_interpolation (df : DataFrame) (s nB : ℕ) (sort orientation : String)
    (hr : 1 ≤ df.values.length) (hs : 0 < s) :
    (prepare_data df s nB sort orientation).values.length = (df.values.length - 1) * s + 1 ∧
    (∀ k, k < df.values.length →
      (prepare_data df s nB sort orientation).values.getD (k * s) [] = df.values.getD k []) ∧
    (∀ k j, k + 1 < df.values.length → 0 < j → j < s →
      (prepare_data df s nB sort orientation).values.getD (k * s + j) [] =
        List.zipWith (fun a b => a + ((j : ℚ) / (s : ℚ)) * (b - a))
          (df.values.getD k []) (df.values.getD (k + 1) [])) := by
  refine ⟨prepare_length df s nB sort orientation, ?_, ?_⟩
  · intro k hk
    have hks : k * s < (df.values.length - 1) * s + 1 := by
      have h1 : k ≤ df.values.length - 1 := by omega
      have h2 := Nat.mul_le_mul_right s h1
      omega
    show (interpolateFrames df.values s).getD (k * s) [] = _
    unfold interpolateFrames
    rw [getD_range_map _ _ _ hks]
    unfold interpAt
    rw [Nat.mul_mod_left, if_pos rfl, Nat.mul_div_cancel k hs]
  · intro k j hk hj0 hjs
    have hbound : k * s + j < (df.values.length - 1) * s + 1 := by
      have h1 : k * s + j < (k + 1) * s := by
        rw [Nat.succ_mul]
        omega
      have h2 : (k + 1) * s ≤ (df.values.length - 1) * s :=
        Nat.mul_le_mul_right s (by omega)
      omega
    have hmod : (k * s + j) % s = j := by
      rw [Nat.add_comm, Nat.add_mul_mod_self_right]
      exact Nat.mod_eq_of_lt hjs
    have hdiv : (k * s + j) / s = k := by
      rw [Nat.add_comm, Nat.add_mul_div_right j k hs, Nat.div_eq_of_lt hjs, Nat.zero_add]
    show (interpolateFrames df.values s).getD (k * s + j) [] = _
    unfold interpolateFrames
    rw [getD_range_map _ _ _ hbound]
    unfold interpAt
    rw [hmod, if_neg (by omega), hdiv]
    rfl

/-- Witness for C4 at the concrete instance of the claim: a three-column
table with 2 rows and `steps_per_period = 2` yields exactly 3 virtual rows,
the middle one the midpoint of rows 0 and 2. -/
theorem value_frame_interpolation_witness :
    (prepare_data df2 2 3 descStr hStr).values.length = 3 ∧
    (prepare_data df2 2 3 descStr hStr).values.getD 0 [] = [0, 0, 0] ∧
    (prepare_data df2 2 3 descStr hStr).values.getD 2 [] = [2, 4, 6] ∧
    (prepare_data df2 2 3 descStr hStr).values.getD 1 [] = [1, 2, 3] := by
  have h := value_frame_interpolation df2 2 3 descStr hStr (by decide) (by decide)
  refine ⟨by rw [h.1]; rfl, ?_, ?_, ?_⟩
  · have h0 := h.2.1 0 (by decide)
    rw [show (0 : ℕ) * 2 = 0 from rfl] at h0
    rw [h0]
    rfl
  · have h1 := h.2.1 1 (by decide)
    rw [show (1 : ℕ) * 2 = 2 from rfl] at h1
    rw [h1]
    rfl
  · have h2 := h.2.2 0 1 (by decide) (by decide) (by decide)
    rw [show (0 : ℕ) * 2 + 1 = 1 from rfl] at h2
    rw [h2]
    norm_num [df2]

/-- Claim C7 (falsified by the code): `get_data_cols` can never return the
unknown-column error — the loop checks each of the table's own columns for
membership in the table's own columns, which always succeeds, so the result is
fully characterised by the numeric-column test alone. -/
theorem unknown_column_unreachable (df : DataFrame) :
    get_data_cols df =
      (if numericCols df.cols = [] then PyExcept.error DataColsError.noNumericColumns
       else PyExcept.ok (numericCols df.cols)) := by
  unfold get_data_cols
  have hf : df.cols.find? (fun c => !(df.columns.contains c.1)) = none := by
    rw [List.find?_eq_none]
    intro c hc
    simp only [Bool.not_eq_true', Bool.not_eq_true, Bool.not_not]
    have : c.1 ∈ df.columns := List.mem_map.mpr ⟨c, hc, rfl⟩
    simpa [List.contains] using this
  rw [hf]

/-- Claim C10: every frame index produced by `get_frames` yields a period-label
lookup index `i / steps_per_period` strictly below the original row count, so
the label lookup in `plot_bars` stays in bounds. -/
theorem period_label_index_safe (df : DataFrame) (s nB : ℕ) (sort orientation : String)
    (i : ℕ) (hs : 0 < s) (hr : 1 ≤ df.values.length)
    (hidx : df.index.length = df.values.length)
    (hi : i ∈ get_frames (prepare_data df s nB sort orientation)) :
    i / s < df.index.length := by
  rw [hidx]
  rw [get_frames, prepare_length, List.mem_range] at hi
  have h2 : i ≤ (df.values.length - 1) * s := by omega
  have h3 : i / s ≤ (df.values.length - 1) * s / s := Nat.div_le_div_right h2
  rw [Nat.mul_div_cancel _ hs] at h3
  omega

/-- Witness for C10: two original rows, two steps per period, final frame
`i = 2` — the label index `2 / 2 = 1` is in bounds. -/
theorem period_label_index_safe_witness : (2 : ℕ) / 2 < df2.index.length := by
  exact period_label_index_safe df2 2 3 descStr hStr 2 (by decide) (by decide) (by decide)
    (by rw [get_frames, prepare_length, List.mem_range]; decide)

/-- Claim C3 (falsified by the code): at the input `dfC3` with `n_bars = 1`,
`sort = "desc"`, `orientation = "h"`, the RankFrame holds the value `0`, which
lies outside the claimed interval `[1, n_bars + 1]`. -/
theorem rank_bounds_counterexample :
    ((prepare_data dfC3 1 1 descStr hStr).ranks.getD 0 []).getD 1 0 = 0 ∧
    ¬ (1 ≤ ((prepare_data dfC3 1 1 descStr hStr).ranks.getD 0 []).getD 1 0) := by
  have h : (prepare_data dfC3 1 1 descStr hStr).ranks = [[1, 0, 0]] := by
    norm_num [prepare_data, interpolateFrames, interpAt, rankRow, rankFirstDesc, invertRanks,
      List.enum, dfC3, descStr, ascStr, hStr, vStr, List.range, List.range.loop,
      DataFrame.columns]
  rw [h]
  norm_num

/-- Claim C3 as amended: every rank value of the RankFrame lies in
`[0, n_bars + 1]`, and in `[1, n_bars + 1]` whenever the sort/orientation
combination does not invert ranks (the inversion maps the clipped value
`n_bars + 1` to `0`, which is how ranks escape the claimed interval). -/
theorem rank_bounds_amended (df : DataFrame) (s nB : ℕ) (sort orientation : String)
    (hs : 0 < s) :
    ∀ row ∈ (prepare_data df s nB sort orientation).ranks, ∀ v ∈ row,
      (0 ≤ v ∧ v ≤ (nB : ℚ) + 1) ∧ (invertRanks sort orientation = false → 1 ≤ v) := by
  intro row hrow
  have hrow2 : row ∈ interpolateFrames (df.values.map (rankRow nB sort orientation)) s := hrow
  unfold interpolateFrames at hrow2
  rw [List.mem_map] at hrow2
  obtain ⟨i, _, rfl⟩ := hrow2
  intro v hv
  rcases hb : invertRanks sort orientation with _ | _
  · have hbase : ∀ r ∈ df.values.map (rankRow nB sort orientation), ∀ w ∈ r,
        1 ≤ w ∧ w ≤ (nB : ℚ) + 1 := by
      intro r hr w hw
      rw [List.mem_map] at hr
      obtain ⟨xs, _, rfl⟩ := hr
      have h := rankRow_bounds w hw
      exact ⟨h.2 hb, h.1.2⟩
    have h := interpAt_mem_bounds hs hbase v hv
    exact ⟨⟨by linarith [h.1], h.2⟩, fun _ => h.1⟩
  · have hbase : ∀ r ∈ df.values.map (rankRow nB sort orientation), ∀ w ∈ r,
        0 ≤ w ∧ w ≤ (nB : ℚ) + 1 := by
      intro r hr w hw
      rw [List.mem_map] at hr
      obtain ⟨xs, _, rfl⟩ := hr
      exact (rankRow_bounds w hw).1
    have h := interpAt_mem_bounds hs hbase v hv
    refine ⟨h, fun hf => ?_⟩
    simp at hf

/-- Witness for the amended C3: at `dfC3` with a non-inverting combination
(`sort = "asc"`, `orientation = "h"`) every rank value is in `[1, 2]`;
the bound is checked at the concrete value `2`. -/
theorem rank_bounds_amended_witness :
    ((0 : ℚ) ≤ 2 ∧ (2 : ℚ) ≤ (1 : ℕ) + 1) ∧
    (invertRanks ascStr hStr = false → (1 : ℚ) ≤ 2) := by
  have hinv : invertRanks ascStr hStr = false := by decide
  have h : (prepare_data dfC3 1 1 ascStr hStr).ranks = [[1, 2, 2]] := by
    norm_num [prepare_data, interpolateFrames, interpAt, rankRow, rankFirstDesc, hinv,
      List.enum, dfC3, List.range, List.range.loop, DataFrame.columns]
  have h2 := rank_bounds_amended dfC3 1 1 ascStr hStr (by decide) [1, 2, 2]
    (by rw [h]; exact List.mem_cons_self _ _) 2 (by simp)
  exact h2

/-- Claim C5: a column is drawn by `plot_bars` in frame `i` exactly when its
rank at sub-step `i` lies strictly inside the open interval
`(0, n_bars + 1)`; all other columns are omitted from the frame. -/
theorem plot_bars_filter (columns : List String) (values ranks : List (List ℚ))
    (nB i j : ℕ) (hnd : columns.Nodup) (hj : j < columns.length)
    (hlen : columns.length ≤ (ranks.getD i []).length) :
    (columns.getD j emptyStr ∈ (plot_bars columns values ranks nB i).cols ↔
      (0 < (ranks.getD i []).getD j 0 ∧ (ranks.getD i []).getD j 0 < (nB : ℚ) + 1)) := by
  have hmask : ((ranks.getD i []).map (top_filt nB)).length = (ranks.getD i []).length :=
    List.length_map _ _
  show (columns.getD j emptyStr ∈
      applyFilt ((ranks.getD i []).map (top_filt nB)) columns ↔ _)
  rw [getD_mem_applyFilt_iff emptyStr hnd hj (by rw [hmask]; exact hlen)]
  rw [getD_map_of_lt (top_filt nB) _ j (lt_of_lt_of_le hj hlen) 0]
  simp [top_filt]

/-- Witness for C5: with ranks `[1, 0, 0]` and `n_bars = 1` only the first
column passes the strict filter and is drawn. -/
theorem plot_bars_filter_witness :
    aStr ∈ (plot_bars [aStr, bStr, cStr] (prepare_data dfC3 1 1 descStr hStr).values
      (prepare_data dfC3 1 1 descStr hStr).ranks 1 0).cols := by
  have h : (prepare_data dfC3 1 1 descStr hStr).ranks = [[1, 0, 0]] := by
    norm_num [prepare_data, interpolateFrames, interpAt, rankRow, rankFirstDesc, invertRanks,
      List.enum, dfC3, descStr, ascStr, hStr, vStr, List.range, List.range.loop,
      DataFrame.columns]
  have hiff := plot_bars_filter [aStr, bStr, cStr]
    (prepare_data dfC3 1 1 descStr hStr).values
    (prepare_data dfC3 1 1 descStr hStr).ranks 1 0 0
    (by decide) (by decide) (by rw [h]; decide)
  refine hiff.mpr ?_
  rw [h]
  norm_num

/-- Claim C2 (falsified by the code): with charts of 10 and 15 frames, the
frames argument `animate_multiple_plots` passes to the driver is `9`, not the
claimed `min` of the frame counts `10`. -/
theorem multi_plot_frames_counterexample :
    (get_frames chartA).length = 10 ∧ (get_frames chartB).length = 15 ∧
    animate_multiple_plots_frames [chartA, chartB] = 9 ∧
    animate_multiple_plots_frames [chartA, chartB] ≠ 10 := by
  refine ⟨by decide, by decide, by decide, by decide⟩

/-- Claim C2 as amended: `animate_multiple_plots` drives
`min(frame counts) - 1` frames — `min([max(plot.get_frames())])` is the
minimum of the largest frame indices, one less than the shortest chart's
frame count. -/
theorem multi_plot_frames_amended (plots : List Prepared) (_hne : plots ≠ [])
    (_hall : ∀ p ∈ plots, 1 ≤ p.values.length) :
    animate_multiple_plots_frames plots =
      listMin (plots.map (fun p => (get_frames p).length)) - 1 := by
  unfold animate_multiple_plots_frames
  have hmap : plots.map (fun p => listMax (get_frames p)) =
      (plots.map (fun p => (get_frames p).length)).map (fun x => x - 1) := by
    rw [List.map_map]
    apply List.map_congr_left
    intro p _
    show listMax (get_frames p) = (get_frames p).length - 1
    rw [get_frames, listMax_range, List.length_range]
  rw [hmap, listMin_map_pred]

/-- Witness for the amended C2: charts with 2 and 3 frames — the driver gets
`min(2, 3) - 1 = 1`. -/
theorem multi_plot_frames_amended_witness :
    animate_multiple_plots_frames [chartC, chartD] =
      listMin [(get_frames chartC).length, (get_frames chartD).length] - 1 := by
  have h := multi_plot_frames_amended [chartC, chartD] (by simp)
    (by
      intro p hp
      rw [List.mem_cons, List.mem_cons] at hp
      rcases hp with rfl | hp
      · decide
      · rcases hp with rfl | hp
        · decide
        · exact absurd hp (List.not_mem_nil p))
  simpa using h

/-- Claim C6 (falsified by the code): `validate_params` would reject an
invalid `sort`, but `__attrs_post_init__` never calls it — construction with
`sort = "up"` completes and produces the full derived state. -/
theorem validate_params_never_called :
    validate_params badSort hStr = PyExcept.error sortErr ∧
    (attrs_post_init dfC6 1 0 badSort hStr).n_bars = 1 ∧
    (attrs_post_init dfC6 1 0 badSort hStr).df_values = [[1]] ∧
    (attrs_post_init dfC6 1 0 badSort hStr).df_rank = [[1]] := by
  refine ⟨by decide, by decide, ?_, ?_⟩
  · norm_num [attrs_post_init, prepare_data, interpolateFrames, interpAt, rankRow,
      rankFirstDesc, invertRanks, List.enum, dfC6, badSort, descStr, ascStr, hStr, vStr,
      List.range, List.range.loop, DataFrame.columns]
  · norm_num [attrs_post_init, prepare_data, interpolateFrames, interpAt, rankRow,
      rankFirstDesc, invertRanks, List.enum, dfC6, badSort, descStr, ascStr, hStr, vStr,
      List.range, List.range.loop, DataFrame.columns]

/-- Claim C8 (falsified by the code): `prepare_data` keeps every column of the
table — the non-numeric column `b` stays in the ValueFrame/RankFrame, while
the numeric-column selection of `get_data_cols` (which no BarChart code path
invokes) would have kept only `a`. -/
theorem nonnumeric_columns_not_dropped :
    (prepare_data dfMixed 1 2 descStr hStr).columns = [aStr, bStr] ∧
    numericCols dfMixed.cols = [aStr] ∧
    bStr ∈ (prepare_data dfMixed 1 2 descStr hStr).columns ∧
    bStr ∉ numericCols dfMixed.cols := by
  refine ⟨by decide, by decide, by decide, by decide⟩

/-- Claim C9: for a supplied color list with `c ≥ 1` colors and `m` columns,
the final color table has length `m` and column `j` gets color `j mod c` —
the supplied colors repeated cyclically and truncated to the column count. -/
theorem get_colors_cyclic (cmap : List String) (m j : ℕ) (hc : cmap ≠ []) (hj : j < m) :
    (get_colors cmap m).length = m ∧
    (get_colors cmap m).getD j emptyStr = cmap.getD (j % cmap.length) emptyStr := by
  have hn : 0 < cmap.length := List.length_pos.mpr hc
  simp only [get_colors]
  by_cases hm : m > cmap.length
  · rw [if_pos hm]
    have hlen : (repeatList cmap (m / cmap.length + 1)).length =
        cmap.length * (m / cmap.length + 1) := repeatList_length cmap _
    have hge : m ≤ cmap.length * (m / cmap.length + 1) := by
      have h1 : cmap.length * (m / cmap.length) + m % cmap.length = m :=
        Nat.div_add_mod m cmap.length
      have h2 : m % cmap.length < cmap.length := Nat.mod_lt m hn
      rw [Nat.mul_succ]
      omega
    constructor
    · rw [List.length_take, hlen]
      exact min_eq_left hge
    · rw [getD_take_of_lt _ _ _ hj, repeatList_getD cmap _ j hc (by rw [← hlen]; omega)]
  · rw [if_neg hm]
    push_neg at hm
    constructor
    · rw [List.length_take]
      omega
    · rw [getD_take_of_lt _ _ _ hj, Nat.mod_eq_of_lt (lt_of_lt_of_le hj hm)]

/-- Witness for C9 at the concrete instance of the claim: 3 supplied colors
and 5 columns — length 5 and column 3 wraps around to color `3 mod 3 = 0`. -/
theorem get_colors_cyclic_witness :
    (get_colors [c0Str, c1Str, c2Str] 5).length = 5 ∧
    (get_colors [c0Str, c1Str, c2Str] 5).getD 3 emptyStr =
      [c0Str, c1Str, c2Str].getD (3 % [c0Str, c1Str, c2Str].length) emptyStr := by
  exact get_colors_cyclic [c0Str, c1Str, c2Str] 5 3 (by decide) (by decide)

end PandasAlive
